import Mathlib

/-!
Shallow embedding of the chess rules core of the `ludviggl-chess` repository
(`src/utils.rs`, `src/moves.rs`, `src/piece.rs`, `src/player.rs`, `src/board.rs`).

Rust `u64` bitboards are modelled as `Nat` values below `2 ^ 64`; every shift
that can discard high bits in Rust is reduced modulo `2 ^ 64`.  Rust panics
(array index out of bounds, explicit `panic!`, `debug_assert` that is followed
by an out-of-bounds access in release builds) are modelled by `Option`:
a function returns `none` exactly where the Rust code aborts.
-/

namespace Chess

/-- All 64 bits set, the value of `utils::FILL`. -/
def FILL : Nat := 0xffffffffffffffff

/-- One more than the largest `u64`, used to truncate shifts. -/
def MOD64 : Nat := 0x10000000000000000

/-- Left shift truncated to 64 bits, the behaviour of Rust `<<` on `u64`
for an in-range shift amount. -/
def shl64 (x s : Nat) : Nat := (x <<< s) % MOD64

/-- Bitwise complement on 64-bit values, Rust `!x` for `u64`. -/
def compl64 (x : Nat) : Nat := FILL ^^^ x

/-- The value of `u64::trailing_zeros`: index of the least significant set
bit, or 64 for the zero word. -/
def tz64 (x : Nat) : Nat :=
  (((List.range 64).find? (fun i => x.testBit i)).getD 64)

/-- The value of `u64::leading_zeros`: number of leading zero bits,
64 for the zero word. -/
def lz64 (x : Nat) : Nat :=
  (((List.range 64).find? (fun i => x.testBit (63 - i))).getD 64)

/-- The value of `u64::count_ones` for a 64-bit word. -/
def popcount (x : Nat) : Nat :=
  (List.range 64).countP (fun i => x.testBit i)

/-- The list of single-bit words of a 64-bit mask in ascending bit order,
exactly the sequence produced by `utils::BitIterator`. -/
def bits64 (x : Nat) : List Nat :=
  (List.range 64).filterMap (fun i => if x.testBit i then some (1 <<< i) else none)

/-- Source `utils::flatten`. -/
def flatten (x y : Nat) : Nat := x ||| (y <<< 3)

/-- Source `utils::bit`. -/
def bit (b : Nat) : Nat := 1 <<< b

/-- Source `utils::shr_unchecked`: `checked_shr`, zero when the shift
amount is 64 or more. -/
def shr_unchecked (x s : Nat) : Nat := if 64 ≤ s then 0 else x >>> s

/-- Source `utils::shl_unchecked`: `checked_shl`, zero when the shift
amount is 64 or more. -/
def shl_unchecked (x s : Nat) : Nat := if 64 ≤ s then 0 else shl64 x s

/-- Source `utils::flatten_bit`. -/
def flatten_bit (x y : Nat) : Nat := bit (flatten x y)

/-- Source `utils::unflatten`. -/
def unflatten (i : Nat) : Nat × Nat := (i &&& 7, i >>> 3)

/-- Source `utils::unflatten_bit`. -/
def unflatten_bit (m : Nat) : Nat × Nat := unflatten (tz64 m)

/-- Source `utils::fill_left_incl`. -/
def fill_left_incl (m : Nat) : Nat := shl_unchecked FILL (tz64 m)

/-- Source `utils::fill_left_excl`. -/
def fill_left_excl (m : Nat) : Nat := shl_unchecked FILL (tz64 m + 1)

/-- Source `utils::fill_right_incl`. -/
def fill_right_incl (m : Nat) : Nat := shr_unchecked FILL (lz64 m)

/-- Source `utils::fill_right_excl`. -/
def fill_right_excl (m : Nat) : Nat := shr_unchecked FILL (lz64 m + 1)

/-- Source `utils::fill_between_incl`. -/
def fill_between_incl (b1 b2 : Nat) : Nat :=
  (fill_left_incl b1 &&& fill_right_incl b2) |||
  (fill_left_incl b2 &&& fill_right_incl b1)

/-- Source `utils::fill_between_excl`. -/
def fill_between_excl (b1 b2 : Nat) : Nat :=
  (fill_left_excl b1 &&& fill_right_excl b2) |||
  (fill_left_excl b2 &&& fill_right_excl b1)

/-- Source `utils::byte_mask`. -/
def byte_mask (i : Nat) : Nat := shl64 0xff (i &&& 0b111000)

/-- Source `utils::col_mask`. -/
def col_mask (i : Nat) : Nat := shl64 0x0101010101010101 (i &&& 0b111)

/-- Source `utils::neg_diag_through`. -/
def neg_diag_through (b : Nat) : Nat :=
  let DN : Nat := 0x8040201008040201
  let p := unflatten_bit b
  if p.2 ≤ p.1 then DN >>> ((p.1 - p.2) <<< 3) else shl64 DN ((p.2 - p.1) <<< 3)

/-- Source `utils::pos_diag_through`. -/
def pos_diag_through (b : Nat) : Nat :=
  let DP : Nat := 0x0102040810204080
  let p := unflatten_bit b
  let z := 7 - p.1
  if p.2 ≤ z then DP >>> ((z - p.2) <<< 3) else shl64 DP ((p.2 - z) <<< 3)

/-- Source `utils::diag_ray_between_incl` (the boolean multiplication of the
source is written as a conditional). -/
def diag_ray_between_incl (b1 b2 : Nat) : Nat :=
  let dn := neg_diag_through b1
  let dp := pos_diag_through b1
  let d := (if dn &&& b2 ≠ 0 then dn else 0) ||| (if dp &&& b2 ≠ 0 then dp else 0)
  d &&& fill_between_incl b1 b2

/-- Source `utils::ortho_ray_between_incl`. -/
def ortho_ray_between_incl (b1 b2 : Nat) : Nat :=
  let h := byte_mask (tz64 b1)
  let v := col_mask (tz64 b1)
  let o := (if h &&& b2 ≠ 0 then h else 0) ||| (if v &&& b2 ≠ 0 then v else 0)
  o &&& fill_between_incl b1 b2

/-- Source `utils::diag_ray_between_excl`. -/
def diag_ray_between_excl (b1 b2 : Nat) : Nat :=
  let dn := neg_diag_through b1
  let dp := pos_diag_through b1
  let d := (if dn &&& b2 ≠ 0 then dn else 0) ||| (if dp &&& b2 ≠ 0 then dp else 0)
  d &&& fill_between_excl b1 b2

/-- Source `utils::ortho_ray_between_excl`. -/
def ortho_ray_between_excl (b1 b2 : Nat) : Nat :=
  let h := byte_mask (tz64 b1)
  let v := col_mask (tz64 b1)
  let o := (if h &&& b2 ≠ 0 then h else 0) ||| (if v &&& b2 ≠ 0 then v else 0)
  o &&& fill_between_excl b1 b2

/-! Precomputed move tables from `moves.rs`, expressed as functions of the
square index. -/

/-- The king offset kernel from `moves.rs`. -/
def kingKernel : List (Int × Int) :=
  [(-1, -1), (0, -1), (1, -1), (-1, 0), (1, 0), (-1, 1), (0, 1), (1, 1)]

/-- The knight offset kernel from `moves.rs`. -/
def knightKernel : List (Int × Int) :=
  [(-1, -2), (1, -2), (-2, -1), (2, -1), (-2, 1), (2, 1), (-1, 2), (1, 2)]

/-- The pawn move kernel from `moves.rs` (both directions). -/
def pawnMoveKernel : List (Int × Int) := [(0, -1), (0, 1)]

/-- The pawn attack kernel from `moves.rs` (both directions). -/
def pawnAttackKernel : List (Int × Int) := [(-1, -1), (1, -1), (-1, 1), (1, 1)]

/-- The table construction loop of `Moves::init` for the offset kernels:
union of the in-bounds offsets of square `i`. -/
def kernelMask (ker : List (Int × Int)) (i : Nat) : Nat :=
  let o := unflatten i
  ker.foldl (fun m p =>
    let x : Int := (o.1 : Int) + p.1
    let y : Int := (o.2 : Int) + p.2
    if 0 ≤ x ∧ x < 8 ∧ 0 ≤ y ∧ y < 8 then m ||| flatten_bit x.toNat y.toNat else m) 0

/-- Table `MOVES.king_moves`. -/
def king_moves (i : Nat) : Nat := kernelMask kingKernel i

/-- Table `MOVES.knight_moves`. -/
def knight_moves (i : Nat) : Nat := kernelMask knightKernel i

/-- Table `MOVES.pawn_moves`. -/
def pawn_moves (i : Nat) : Nat := kernelMask pawnMoveKernel i

/-- Table `MOVES.pawn_attacks`. -/
def pawn_attacks (i : Nat) : Nat := kernelMask pawnAttackKernel i

/-- Table `MOVES.north`: entry `i` is the seed shifted left `i` times. -/
def northRay (i : Nat) : Nat := shl64 0x0101010101010100 i

/-- Table `MOVES.south`. -/
def southRay (i : Nat) : Nat := 0x0080808080808080 >>> (63 - i)

/-- Table `MOVES.west`. -/
def westRay (i : Nat) : Nat := shl64 0xfe i &&& byte_mask i

/-- Table `MOVES.east`. -/
def eastRay (i : Nat) : Nat := (0x7f00000000000000 >>> (63 - i)) &&& byte_mask i

/-- Table `MOVES.north_west`. -/
def northWestRay (i : Nat) : Nat := neg_diag_through (bit i) &&& fill_left_excl (bit i)

/-- Table `MOVES.south_east`. -/
def southEastRay (i : Nat) : Nat := neg_diag_through (bit i) &&& fill_right_excl (bit i)

/-- Table `MOVES.north_east`. -/
def northEastRay (i : Nat) : Nat := pos_diag_through (bit i) &&& fill_left_excl (bit i)

/-- Table `MOVES.south_west`. -/
def southWestRay (i : Nat) : Nat := pos_diag_through (bit i) &&& fill_right_excl (bit i)

end Chess


namespace Chess

/-- Source `piece.rs`: the piece kinds. -/
inductive Piece where
  | Pawn | Rook | Knight | Bishop | Queen | King
deriving DecidableEq

/-- Source `player.rs`: the two players. -/
inductive Player where
  | White | Black
deriving DecidableEq

/-- The turn switch of `board.rs` (the `match` in `play_move` and
`select_promotion`). -/
def otherP : Player → Player
  | .White => .Black
  | .Black => .White

/-- Source `board::index::into_piece`; total because every index at least 8
maps to `Pawn` in the source (`8..` arm). Callers guard indices below 16,
where the source would fail on the array access first. -/
def into_piece (id : Nat) : Piece :=
  if id = 0 then .King
  else if id ≤ 2 then .Knight
  else if id ≤ 4 then .Rook
  else if id = 5 then .Queen
  else if id ≤ 7 then .Bishop
  else .Pawn

/-- Source `board::Team`: the 16 `positions` and `promotions` arrays are
lists (always of length 16 in states built by the embedded operations). -/
structure Team where
  positions : List Nat
  promotions : List (Option Piece)
  promotion_id : Int
  en_passant_pos : Nat
  did_castling : Bool
  did_move : Nat
  king_moved : Bool
deriving DecidableEq

/-- Source `Team::mask`. -/
def Team.mask (t : Team) : Nat := t.positions.foldl (fun m p => m ||| p) 0

/-- Source `Team::default`. -/
def Team.default : Team :=
  { positions := List.replicate 16 0
    promotions := List.replicate 16 none
    promotion_id := -1
    en_passant_pos := 0
    did_castling := false
    did_move := 0
    king_moved := false }

/-- Source `board::Board`. -/
structure Board where
  white : Team
  black : Team
  player : Player
deriving DecidableEq

/-- Selects the team record of a player, the `match self.player` idiom of
the source. -/
def Board.teamOf (b : Board) : Player → Team
  | .White => b.white
  | .Black => b.black

/-- Writes back the team record of a player. -/
def Board.setTeam (b : Board) : Player → Team → Board
  | .White, t => { b with white := t }
  | .Black, t => { b with black := t }

/-- Source `Board::new`: the standard opening placement, slot order
king, knights, rooks, queen, bishops, pawns. -/
def Board.new : Board :=
  let backRank (r : Nat) : List Nat :=
    [flatten_bit 4 r, flatten_bit 1 r, flatten_bit 6 r,
     flatten_bit 0 r, flatten_bit 7 r, flatten_bit 3 r,
     flatten_bit 2 r, flatten_bit 5 r]
  let pawnRank (r : Nat) : List Nat :=
    (List.range 8).map (fun i => flatten_bit i r)
  { white := { Team.default with positions := backRank 0 ++ pawnRank 1 }
    black := { Team.default with positions := backRank 7 ++ pawnRank 6 }
    player := .White }

/-- Source `Board::has_promotion`. -/
def has_promotion (b : Board) : Bool :=
  decide (0 ≤ (b.teamOf b.player).promotion_id)

/-! Pseudo-legal generators (`board.rs`). -/

/-- One direction of `Board::ortho_unrestr` / `Board::diag_unrestr`:
clip the ray at the first blocker (`towardMSB` selects the
`fill_left` pair used for north/west/north-east/north-west rays,
otherwise the `fill_right` pair). -/
def clipRay (ray curr opp : Nat) (towardMSB : Bool) : Nat :=
  let cint := ray &&& curr
  let oint := ray &&& opp
  if 0 < cint + oint then
    let cblk := if towardMSB then fill_left_incl cint else fill_right_incl cint
    let oblk := if towardMSB then fill_left_excl oint else fill_right_excl oint
    ray &&& compl64 (cblk ||| oblk)
  else ray

/-- Source `Board::ortho_unrestr` (caller guarantees `pos ≠ 0`). -/
def ortho_unrestr (pos curr opp : Nat) : Nat :=
  let i := tz64 pos
  clipRay (northRay i) curr opp true ||| clipRay (westRay i) curr opp true |||
  clipRay (southRay i) curr opp false ||| clipRay (eastRay i) curr opp false

/-- Source `Board::diag_unrestr` (caller guarantees `pos ≠ 0`). -/
def diag_unrestr (pos curr opp : Nat) : Nat :=
  let i := tz64 pos
  clipRay (northEastRay i) curr opp true ||| clipRay (northWestRay i) curr opp true |||
  clipRay (southWestRay i) curr opp false ||| clipRay (southEastRay i) curr opp false

/-- Source `Board::pawn_unrestr` (caller guarantees `pos ≠ 0`). -/
def pawn_unrestr (pos curr opp : Nat) (player : Player) (oppEp : Nat) : Nat :=
  let i := tz64 pos
  let msk := match player with
    | .White => fill_left_excl pos
    | .Black => fill_right_excl pos
  let m1 := pawn_moves i &&& msk &&& compl64 curr &&& compl64 opp
  let m2 :=
    if 0 < m1 then
      let dbl := match player with
        | .White => shl64 pos 16
        | .Black => pos >>> 16
      let first : Bool := match player with
        | .White => i >>> 3 == 1
        | .Black => i >>> 3 == 6
      if first then m1 ||| (dbl &&& compl64 curr &&& compl64 opp) else m1
    else m1
  let m3 := m2 ||| (pawn_attacks i &&& msk &&& opp)
  let ep := (match player with
    | .White => shl64 (((pawn_attacks i &&& msk) >>> 8) &&& oppEp) 8
    | .Black => (shl64 (pawn_attacks i &&& msk) 8 &&& oppEp) >>> 8) &&& compl64 curr
  m3 ||| ep

/-- Source `Board::knight_unrestr` (caller guarantees `pos ≠ 0`). -/
def knight_unrestr (pos curr : Nat) : Nat := knight_moves (tz64 pos) &&& compl64 curr

/-- Source `Board::king_unrestr` (caller guarantees `pos ≠ 0`). -/
def king_unrestr (pos curr : Nat) : Nat := king_moves (tz64 pos) &&& compl64 curr

/-- Source `Board::ortho_can_reach`. -/
def ortho_can_reach (pos target blk : Nat) : Bool :=
  if pos = 0 then false
  else
    let ray := ortho_ray_between_incl pos target
    if ray = 0 ∨ 0 < blk &&& (ray &&& compl64 pos &&& compl64 target) then false
    else true

/-- Source `Board::diag_can_reach`. -/
def diag_can_reach (pos target blk : Nat) : Bool :=
  if pos = 0 then false
  else
    let ray := diag_ray_between_incl pos target
    if ray = 0 ∨ 0 < blk &&& (ray &&& compl64 pos &&& compl64 target) then false
    else true

/-! The attack and pin engine (`board.rs`). -/

/-- The unpromoted-pawn scan of `Board::is_attacked`. -/
def pawn_att_hit (pwn_att : Nat) (oppPos : List Nat) (oppProm : List (Option Piece)) : Bool :=
  (List.range 8).any (fun j =>
    (oppProm.getD (8 + j) none).isNone && (pwn_att &&& oppPos.getD (8 + j) 0 != 0))

/-- The promoted-knight scan of `Board::is_attacked`; a captured promoted
knight makes the source index `knight_moves[64]`, a panic, hence `none`. -/
def prom_knight_hit (pos : Nat) (oppPos : List Nat) (oppProm : List (Option Piece)) :
    Option Bool :=
  (List.range 8).foldl (fun acc j =>
    match acc with
    | some false =>
      if oppProm.getD (8 + j) none = some Piece.Knight then
        let p := oppPos.getD (8 + j) 0
        if p = 0 then none
        else some (knight_moves (tz64 p) &&& pos != 0)
      else some false
    | x => x) (some false)

/-- The promoted slider scan of `Board::is_attacked`. -/
def prom_slide_hit (pos curr opp : Nat) (oppPos : List Nat)
    (oppProm : List (Option Piece)) : Bool :=
  (List.range 8).any (fun j =>
    match oppProm.getD (8 + j) none with
    | some k =>
      let p := oppPos.getD (8 + j) 0
      let blk := (curr &&& compl64 pos) ||| opp
      ((k == Piece.Rook || k == Piece.Queen) && ortho_can_reach p pos blk && p != pos) ||
      ((k == Piece.Bishop || k == Piece.Queen) && diag_can_reach p pos blk && p != pos)
    | none => false)

/-- Source `Board::is_attacked`; `none` models the panics reachable for a
zero `pos` (table index 64) or a captured promoted knight. -/
def is_attacked (pos curr opp : Nat) (oppPos : List Nat)
    (oppProm : List (Option Piece)) (player : Player) : Option Bool :=
  let id := tz64 pos
  if 64 ≤ id then none
  else
    let pwn_att := pawn_attacks id &&& (match player with
      | .White => fill_left_excl pos
      | .Black => fill_right_excl pos)
    if pawn_att_hit pwn_att oppPos oppProm then some true
    else if knight_moves id &&& (oppPos.getD 1 0 ||| oppPos.getD 2 0) != 0 then some true
    else match prom_knight_hit pos oppPos oppProm with
      | none => none
      | some true => some true
      | some false =>
        let blk := (curr &&& compl64 pos) ||| opp
        if (List.range 3).any (fun j =>
            let p := oppPos.getD (3 + j) 0
            ortho_can_reach p pos blk && p != pos) then some true
        else if (List.range 3).any (fun j =>
            let p := oppPos.getD (5 + j) 0
            diag_can_reach p pos blk && p != pos) then some true
        else if prom_slide_hit pos curr opp oppPos oppProm then some true
        else some false

/-- Source `Board::restrict_king`: drops every candidate bit for which
`is_attacked` holds. -/
def restrict_king (moves curr opp : Nat) (oppPos : List Nat)
    (oppProm : List (Option Piece)) (player : Player) : Option Nat :=
  (bits64 moves).foldl (fun acc mv =>
    match acc with
    | none => none
    | some m =>
      match is_attacked mv curr opp oppPos oppProm player with
      | none => none
      | some true => some (m &&& compl64 mv)
      | some false => some m) (some moves)

/-- The filtered rook mask of `Board::castling_moves`: both rook slots,
restricted to the king's rank and to squares outside `did_move`. -/
def castlingRooks (ct : Team) (kpos : Nat) : Nat :=
  ((ct.positions.getD 3 0) ||| (ct.positions.getD 4 0)) &&&
    byte_mask (tz64 kpos) &&& compl64 ct.did_move

/-- Source `Board::castling_moves`.  Note the source adds the destination as
soon as SOME square strictly between king and destination is unattacked,
and never tests the destination square itself. -/
def castling_moves (kpos : Nat) (ct ot : Team) (player : Player) : Option Nat :=
  if ct.king_moved then some 0
  else
    let rooks := castlingRooks ct kpos
    let move_mask := shl64 kpos 2 ||| kpos >>> 2
    (bits64 rooks).foldl (fun acc r =>
      match acc with
      | none => none
      | some moves =>
        let between := ortho_ray_between_excl r kpos
        if 0 < between &&& (ct.mask ||| ot.mask) then some moves
        else
          let mov := move_mask &&& between
          (bits64 (ortho_ray_between_excl kpos mov)).foldl (fun acc2 bb =>
            match acc2 with
            | none => none
            | some ms =>
              match is_attacked bb ct.mask ot.mask ot.positions ot.promotions player with
              | none => none
              | some false => some (ms ||| mov)
              | some true => some ms) (some moves)) (some 0)

/-- The orthogonal line-piece step of `Board::comp_pins`. -/
def pin_ortho (pins king_pos o curr opp pos : Nat) : Nat :=
  let ray := ortho_ray_between_excl king_pos o
  if ray = 0 then
    if 0 < ortho_ray_between_incl king_pos o then pins &&& o else pins
  else
    let blockers := popcount (ray &&& (curr ||| opp))
    if blockers = 0 ∨ (blockers = 1 ∧ 0 < ray &&& pos) then pins &&& (ray ||| o)
    else pins

/-- The diagonal line-piece step of `Board::comp_pins`. -/
def pin_diag (pins king_pos d curr opp pos : Nat) : Nat :=
  let ray := diag_ray_between_excl king_pos d
  if ray = 0 then
    if 0 < diag_ray_between_incl king_pos d then pins &&& d else pins
  else
    let blockers := popcount (ray &&& (curr ||| opp))
    if blockers = 0 ∨ (blockers = 1 ∧ 0 < ray &&& pos) then pins &&& (ray ||| d)
    else pins

/-- The promoted-pawn step of `Board::comp_pins`; the `continue` after the
adjacency test of the rook/queen part skips the bishop/queen part, which
the pair return value records. -/
def prom_pin_step (pins king_pos kn_mov curr opp pos p : Nat) :
    Option Piece → Nat
  | some .Knight => if 0 < kn_mov &&& p then pins &&& p else pins
  | some k =>
    let r1 : Nat × Bool :=
      if k = Piece.Rook ∨ k = Piece.Queen then
        let ray := ortho_ray_between_excl king_pos p
        if ray = 0 then
          ((if 0 < ortho_ray_between_incl king_pos p then pins &&& p else pins), true)
        else
          let blockers := popcount (ray &&& (curr ||| opp))
          ((if blockers = 0 ∨ (blockers = 1 ∧ 0 < ray &&& pos) then pins &&& (ray ||| p)
            else pins), false)
      else (pins, false)
    if r1.2 then r1.1
    else if k = Piece.Bishop ∨ k = Piece.Queen then
      let ray := diag_ray_between_excl king_pos p
      if ray = 0 then
        if 0 < diag_ray_between_incl king_pos p then r1.1 &&& p else r1.1
      else
        let blockers := popcount (ray &&& (curr ||| opp))
        if blockers = 0 ∨ (blockers = 1 ∧ 0 < ray &&& pos) then r1.1 &&& (ray ||| p)
        else r1.1
    else r1.1
  | none => pins

/-- Source `Board::comp_pins`; `none` models the table index 64 panic when
the king bitboard is zero. -/
def comp_pins (pos curr opp : Nat) (oppPos : List Nat)
    (oppProm : List (Option Piece)) (king_pos : Nat) (player : Player) : Option Nat :=
  if king_pos = 0 then none
  else
    let king_id := tz64 king_pos
    let pwn_att := pawn_attacks king_id &&& (match player with
      | .White => fill_left_excl king_pos
      | .Black => fill_right_excl king_pos)
    let p0 := (List.range 8).foldl (fun pins j =>
      if (oppProm.getD (8 + j) none) = none ∧ 0 < pwn_att &&& oppPos.getD (8 + j) 0
      then pins &&& oppPos.getD (8 + j) 0 else pins) FILL
    let kn_mov := knight_moves king_id
    let p1 := (List.range 2).foldl (fun pins j =>
      if 0 < kn_mov &&& oppPos.getD (1 + j) 0 then pins &&& oppPos.getD (1 + j) 0
      else pins) p0
    let p2 := (List.range 3).foldl (fun pins j =>
      pin_ortho pins king_pos (oppPos.getD (3 + j) 0) curr opp pos) p1
    let p3 := (List.range 3).foldl (fun pins j =>
      pin_diag pins king_pos (oppPos.getD (5 + j) 0) curr opp pos) p2
    let p4 := (List.range 8).foldl (fun pins j =>
      prom_pin_step pins king_pos kn_mov curr opp pos (oppPos.getD (8 + j) 0)
        (oppProm.getD (8 + j) none)) p3
    some p4

/-- Source `Board::get_legal_moves`; `none` models every panic the source
can hit on that path (bad slot index, a promoted pawn whose recorded kind
has no generator, a zero position bitboard reaching a table index of 64,
and the panics inside `is_attacked` and `comp_pins`). -/
def get_legal_moves (b : Board) (id : Nat) : Option Nat :=
  if 16 ≤ id then none
  else
    let ct := b.teamOf b.player
    let ot := b.teamOf (otherP b.player)
    let pos := ct.positions.getD id 0
    let curr := ct.mask
    let opp := ot.mask
    let movesO : Option Nat :=
      match into_piece id with
      | .Pawn =>
        match ct.promotions.getD id none with
        | some .Rook => if pos = 0 then none else some (ortho_unrestr pos curr opp)
        | some .Bishop => if pos = 0 then none else some (diag_unrestr pos curr opp)
        | some .Queen =>
          if pos = 0 then none
          else some (ortho_unrestr pos curr opp ||| diag_unrestr pos curr opp)
        | some _ => none
        | none =>
          if pos = 0 then none
          else some (pawn_unrestr pos curr opp b.player ot.en_passant_pos)
      | .Knight => if pos = 0 then none else some (knight_unrestr pos curr)
      | .King => if pos = 0 then none else some (king_unrestr pos curr)
      | .Bishop => if pos = 0 then none else some (diag_unrestr pos curr opp)
      | .Rook => if pos = 0 then none else some (ortho_unrestr pos curr opp)
      | .Queen =>
        if pos = 0 then none
        else some (diag_unrestr pos curr opp ||| ortho_unrestr pos curr opp)
    match movesO with
    | none => none
    | some moves =>
      if id = 0 then
        match restrict_king moves curr opp ot.positions ot.promotions b.player with
        | none => none
        | some m =>
          match castling_moves pos ct ot b.player with
          | none => none
          | some cm => some (m ||| cm)
      else
        match comp_pins pos curr opp ot.positions ot.promotions
            (ct.positions.getD 0 0) b.player with
        | none => none
        | some pins => some (moves &&& pins)

end Chess

namespace Chess

/-- The capture-square computation of `Board::play_move` for the en passant
redirect. -/
def capt_target (player : Player) (mov : Nat) : Nat :=
  match player with
  | .White => mov >>> 8
  | .Black => shl64 mov 8

/-- The actually captured square of `Board::play_move`: the destination,
redirected one rank backwards when it matches the opponent recorded
en passant position. -/
def att_target (player : Player) (id mov oppEp : Nat) : Nat :=
  if 8 ≤ id ∧ 0 < oppEp then
    if oppEp = capt_target player mov then capt_target player mov else mov
  else mov

/-- The opponent capture scan of `Board::play_move`: zero the first slot
holding exactly the captured square. -/
def zeroFirst : List Nat → Nat → List Nat
  | [], _ => []
  | p :: rest, att => if p = att then 0 :: rest else p :: zeroFirst rest att

/-- The pawn block of `Board::play_move`: en passant bookkeeping and
promotion deferral; the boolean is the `switch` flag. -/
def pawn_step (curr : Team) (id mov : Nat) (dist : Int) (mtz : Nat) : Team × Bool :=
  if 8 ≤ id then
    let c := { curr with en_passant_pos := if dist = 16 ∨ dist = -16 then mov else 0 }
    if (mtz < 8 ∨ 56 ≤ mtz) ∧ c.promotions.getD id none = none then
      ({ c with promotion_id := (id : Int) }, false)
    else (c, true)
  else (curr, true)

/-- The rook relocation of the castling branch of `Board::play_move`:
a rook slot intersecting the fill mask is rewritten to `rpos`. -/
def rook_reloc (cmask rpos i p : Nat) : Nat :=
  if (i = 3 ∨ i = 4) ∧ 0 < p &&& cmask then rpos else p

/-- Applies `rook_reloc` to every slot of a positions list, tracking the
slot index (the loop over `positions[ROOK[0]..=ROOK[1]]` of the source). -/
def reloc_list (cmask rpos : Nat) : Nat → List Nat → List Nat
  | _, [] => []
  | i, p :: rest => rook_reloc cmask rpos i p :: reloc_list cmask rpos (i + 1) rest

/-- The rook / king bookkeeping block of `Board::play_move`. -/
def castle_step (curr : Team) (id pos mov : Nat) (dist : Int) : Team :=
  match into_piece id with
  | .Rook => { curr with did_move := curr.did_move ||| mov }
  | .King =>
    let c := { curr with king_moved := true }
    if dist = -2 then
      { c with did_castling := true
               positions := reloc_list (fill_left_excl pos) (mov >>> 1) 0 c.positions }
    else if dist = 2 then
      { c with did_castling := true
               positions := reloc_list (fill_right_excl pos) (shl64 mov 1) 0 c.positions }
    else c
  | _ => curr

/-- Source `Board::play_move`; `none` models the slot index panic for an
id of 16 or more. -/
def play_move (b : Board) (id mov : Nat) : Option Board :=
  if id < 16 then
    let curr0 := b.teamOf b.player
    let opp0 := b.teamOf (otherP b.player)
    let att := att_target b.player id mov opp0.en_passant_pos
    let opp1 := { opp0 with positions := zeroFirst opp0.positions att }
    let pos := curr0.positions.getD id 0
    let mtz := tz64 mov
    let dist : Int := (tz64 pos : Int) - (mtz : Int)
    let ps := pawn_step curr0 id mov dist mtz
    let curr2 := castle_step ps.1 id pos mov dist
    let curr3 := { curr2 with positions := curr2.positions.set id mov }
    let b1 := (b.setTeam b.player curr3).setTeam (otherP b.player) opp1
    some (if ps.2 then { b1 with player := otherP b.player } else b1)
  else none

/-- Source `Board::select_promotion`; `none` models the abort (a failing
`debug_assert` in debug builds, the array index panic of
`promotions[promotion_id as usize]` in release builds) when no promotion
is pending, and the index panic for a recorded id outside the array. -/
def select_promotion (b : Board) (piece : Piece) : Option Board :=
  let ct := b.teamOf b.player
  if 0 ≤ ct.promotion_id ∧ ct.promotion_id < 16 then
    let pid := ct.promotion_id.toNat
    let ct1 := { ct with promotions := ct.promotions.set pid (some piece)
                         promotion_id := -1 }
    some { b.setTeam b.player ct1 with player := otherP b.player }
  else none

/-- A destination is a legal choice for a slot when it is a single bit
drawn from the legal move mask of that slot. -/
def legal_step (b : Board) (id mov : Nat) : Bool :=
  match get_legal_moves b id with
  | some lm => mov != 0 && mov &&& (mov - 1) == 0 && mov &&& lm == mov
  | none => false

/-- Runs a list of `(slot, destination)` choices through `play_move`,
requiring every choice to be legal in the sense of `legal_step`. -/
def play_legal (b : Board) (ms : List (Nat × Nat)) : Option Board :=
  ms.foldl (fun acc pr =>
    acc.bind (fun bb =>
      if legal_step bb pr.1 pr.2 then play_move bb pr.1 pr.2 else none)) (some b)

end Chess

namespace Chess

/-- Number of live pieces of a side: slots with a nonzero bitboard. -/
def aliveCount (ps : List Nat) : Nat := ps.countP (fun p => p != 0)

/-- A castling route is permanently dead for rook slot `r` of a team: the
king has moved, or the rook's current square is recorded in `did_move`,
or the rook is captured. -/
def compromised (t : Team) (r : Nat) : Prop :=
  t.king_moved = true ∨ t.positions.getD r 0 &&& t.did_move ≠ 0 ∨
    t.positions.getD r 0 = 0

/-- Move sequence for the en-passant window: white pawn b2-b4 (a double
advance recording `en_passant_pos`), black knight g8-f6, then white knight
b1-a3 — a subsequent non-pawn move by the side that advanced the pawn. -/
def seqEnPassant : List (Nat × Nat) :=
  [(9, flatten_bit 1 3), (2, flatten_bit 5 5), (1, flatten_bit 0 2)]

/-- White side of the castling counterexample: king e1, rook h1. -/
def castlingCexWhite : Team :=
  { Team.default with positions :=
      [flatten_bit 4 0, 0, 0, flatten_bit 7 0, 0, 0, 0, 0,
       0, 0, 0, 0, 0, 0, 0, 0] }

/-- Black side of the castling counterexample: king e8, rook g8. -/
def castlingCexBlack : Team :=
  { Team.default with positions :=
      [flatten_bit 4 7, 0, 0, flatten_bit 6 7, 0, 0, 0, 0,
       0, 0, 0, 0, 0, 0, 0, 0] }

/-- Castling counterexample board, white to move; the g-file rook attacks
the kingside castling destination g1 but not the crossed square f1. -/
def castlingCexBoard : Board :=
  { white := castlingCexWhite, black := castlingCexBlack, player := .White }

/-- White side of the king x-ray counterexample: a lone king on e4. -/
def xrayCexWhite : Team :=
  { Team.default with positions :=
      [flatten_bit 4 3, 0, 0, 0, 0, 0, 0, 0, 0, 0, 0, 0, 0, 0, 0, 0] }

/-- Black side of the king x-ray counterexample: king a8 and rook e8
checking the white king along the e-file. -/
def xrayCexBlack : Team :=
  { Team.default with positions :=
      [flatten_bit 0 7, 0, 0, flatten_bit 4 7, 0, 0, 0, 0,
       0, 0, 0, 0, 0, 0, 0, 0] }

/-- King x-ray counterexample board, white to move and in check. -/
def xrayCexBoard : Board :=
  { white := xrayCexWhite, black := xrayCexBlack, player := .White }

/-- An eleven-move sequence, every destination a single bit drawn from
`get_legal_moves`, abusing the unclosed en-passant window: white plays
e4, e5, c4, c5; black answers with knight moves g8-h6-f5 and the double
advance d7-d5 (recording d5 as en passant), then posts the knight on d6.
White's e5 pawn "captures" on d6: the en-passant redirect removes the d5
pawn and leaves the d6 knight in place under the white pawn.  After a
further black knight move, white's c5 pawn also "captures" on d6: the
redirect now aims at the already empty d5, nothing is removed, and the
c-pawn lands on the square the e-pawn already occupies. -/
def seqOverlap : List (Nat × Nat) :=
  [(12, flatten_bit 4 3), (2, flatten_bit 7 5), (12, flatten_bit 4 4),
   (2, flatten_bit 5 4), (10, flatten_bit 2 3), (11, flatten_bit 3 4),
   (10, flatten_bit 2 4), (2, flatten_bit 3 5), (12, flatten_bit 3 5),
   (1, flatten_bit 2 5), (10, flatten_bit 3 5)]


/-- A white pawn on a7 one step from promotion, otherwise only kings. -/
def promoPawnWhite : Team :=
  { Team.default with positions :=
      [flatten_bit 4 0, 0, 0, 0, 0, 0, 0, 0,
       flatten_bit 0 6, 0, 0, 0, 0, 0, 0, 0] }

/-- The black side of the promotion scenario: a lone king on e8. -/
def promoPawnBlack : Team :=
  { Team.default with positions :=
      [flatten_bit 4 7, 0, 0, 0, 0, 0, 0, 0, 0, 0, 0, 0, 0, 0, 0, 0] }

/-- Board for the promotion scenario, white to move. -/
def promoPawnBoard : Board :=
  { white := promoPawnWhite, black := promoPawnBlack, player := .White }

/-- Board after white's queenside rook (slot 3) has played a1-a4 from the
initial position. -/
def rookMovedBoard : Board := (play_move Board.new 3 (flatten_bit 0 3)).getD Board.new

/-- Board after a further black knight move b8-a6 on `rookMovedBoard`. -/
def rookMovedBoard2 : Board :=
  (play_move rookMovedBoard 1 (flatten_bit 0 5)).getD Board.new

/-- A board whose side to move has a pending promotion recorded for slot 8
(the slot bitboards themselves are irrelevant to the bookkeeping). -/
def pendingPromoBoard : Board :=
  { white := { Team.default with promotion_id := 8 }
    black := Team.default
    player := .White }

/-- Board after resolving the pending promotion of `pendingPromoBoard`. -/
def pendingPromoAfter : Board :=
  (select_promotion pendingPromoBoard Piece.Queen).getD Board.new

/-- A board whose side to move has a pending promotion recorded for slot 10. -/
def pendingKnightBoard : Board :=
  { white := { Team.default with promotion_id := 10 }
    black := Team.default
    player := .White }

/-- A white team whose pawn slot 8 stands on a8 and is recorded as promoted
to a knight. -/
def knightPromoWhite : Team :=
  { Team.default with
      positions :=
        [flatten_bit 4 0, 0, 0, 0, 0, 0, 0, 0,
         flatten_bit 0 7, 0, 0, 0, 0, 0, 0, 0]
      promotions := (List.replicate 16 (none : Option Piece)).set 8 (some Piece.Knight) }

/-- Board carrying the knight-promoted pawn, white to move. -/
def knightPromoBoard : Board :=
  { white := knightPromoWhite, black := Team.default, player := .White }

end Chess

/-! Sanity checks reproducing the unit tests of `utils.rs` and `moves.rs`. -/

example : Chess.fill_left_incl 0x0a000000 = 0xfffffffffe000000 := by decide
example : Chess.fill_left_excl 0x0a000000 = 0xfffffffffc000000 := by decide
example : Chess.fill_right_incl 0x0a000000 = 0x0fffffff := by decide
example : Chess.fill_right_excl 0x0a000000 = 0x07ffffff := by decide
example : Chess.flatten_bit 2 1 = 0b10000000000 := by decide
example : Chess.unflatten_bit 0b10000000000 = (2, 1) := by decide
example : Chess.byte_mask 10 = 0xff00 := by decide
example : Chess.fill_between_incl 0b000010000 0b100000000 = 0b111110000 := by decide
example : Chess.ortho_ray_between_incl 0x000002 0x020000 = 0x020202 := by decide
example : Chess.ortho_ray_between_incl 0x000002 0x040000 = 0 := by decide
example : Chess.bits64 0b101110 = [0b10, 0b100, 0b1000, 0b100000] := by decide

namespace Chess

theorem teamOf_setTeam_self (b : Board) (p : Player) (t : Team) :
    (b.setTeam p t).teamOf p = t := by cases p <;> rfl

theorem teamOf_setTeam_ne (b : Board) (p q : Player) (t : Team) (h : q ≠ p) :
    (b.setTeam p t).teamOf q = b.teamOf q := by
  cases p <;> cases q <;> first | rfl | exact absurd rfl h

theorem player_setTeam (b : Board) (p : Player) (t : Team) :
    (b.setTeam p t).player = b.player := by cases p <;> rfl

theorem otherP_ne (p : Player) : otherP p ≠ p := by cases p <;> simp [otherP]

theorem into_piece_pawn (id : Nat) (h : 8 ≤ id) : into_piece id = Piece.Pawn := by
  unfold into_piece
  split_ifs <;> first | rfl | omega

theorem pawn_step_positions (curr : Team) (id mov : Nat) (dist : Int) (mtz : Nat) :
    (pawn_step curr id mov dist mtz).1.positions = curr.positions := by
  unfold pawn_step
  dsimp only []
  split_ifs <;> rfl

theorem pawn_step_promotions (curr : Team) (id mov : Nat) (dist : Int) (mtz : Nat) :
    (pawn_step curr id mov dist mtz).1.promotions = curr.promotions := by
  unfold pawn_step
  dsimp only []
  split_ifs <;> rfl

theorem castle_step_pawn (curr : Team) (id pos mov : Nat) (dist : Int) (h : 8 ≤ id) :
    castle_step curr id pos mov dist = curr := by
  unfold castle_step
  rw [into_piece_pawn id h]

theorem pawn_step_far (curr : Team) (id mov : Nat) (dist : Int) (mtz : Nat)
    (h8 : 8 ≤ id) (hfar : mtz < 8 ∨ 56 ≤ mtz)
    (hprom : curr.promotions.getD id none = none) :
    pawn_step curr id mov dist mtz =
      ({ curr with en_passant_pos := if dist = 16 ∨ dist = -16 then mov else 0
                   promotion_id := (id : Int) }, false) := by
  unfold pawn_step
  dsimp only []
  rw [if_pos h8, if_pos ⟨hfar, hprom⟩]

theorem teamOf_double (b : Board) (p : Player) (t u : Team) :
    ((b.setTeam p t).setTeam (otherP p) u).teamOf p = t := by cases p <;> rfl

theorem teamOf_double_other (b : Board) (p : Player) (t u : Team) :
    ((b.setTeam p t).setTeam (otherP p) u).teamOf (otherP p) = u := by cases p <;> rfl

theorem player_double (b : Board) (p : Player) (t u : Team) :
    ((b.setTeam p t).setTeam (otherP p) u).player = b.player := by cases p <;> rfl

theorem teamOf_withPlayer (b : Board) (q p : Player) :
    (Board.mk b.white b.black q).teamOf p = b.teamOf p := by cases p <;> rfl

theorem teamOf_ite (c : Prop) [Decidable c] (x : Board) (v : Player) (p : Player) :
    (if c then Board.mk x.white x.black v else x).teamOf p = x.teamOf p := by
  split_ifs
  · cases p <;> rfl
  · rfl

theorem aliveCount_nil : aliveCount [] = 0 := rfl

theorem aliveCount_cons (p : Nat) (ps : List Nat) :
    aliveCount (p :: ps) = aliveCount ps + (if p = 0 then 0 else 1) := by
  unfold aliveCount
  rcases eq_or_ne p 0 with h | h <;> simp [List.countP_cons, h]

theorem zeroFirst_aliveCount (ps : List Nat) (att : Nat) (hatt : att ≠ 0) :
    aliveCount (zeroFirst ps att) = aliveCount ps ∨
    aliveCount (zeroFirst ps att) + 1 = aliveCount ps := by
  induction ps with
  | nil => exact Or.inl rfl
  | cons p rest ih =>
    unfold zeroFirst
    rcases eq_or_ne p att with h | h
    · rw [if_pos h]
      refine Or.inr ?_
      rw [aliveCount_cons, aliveCount_cons, if_pos rfl, if_neg (h ▸ hatt)]
    · rw [if_neg h, aliveCount_cons, aliveCount_cons]
      rcases ih with h2 | h2
      · exact Or.inl (by omega)
      · exact Or.inr (by omega)

theorem att_target_ne_zero (pl : Player) (id mov ep : Nat) (hm : mov ≠ 0) :
    att_target pl id mov ep ≠ 0 := by
  unfold att_target
  split_ifs with h1 h2
  · intro hc
    rw [hc] at h2
    omega
  · exact hm
  · exact hm

theorem aliveCount_set (ps : List Nat) (i v : Nat)
    (h : ps.getD i 0 ≠ 0) (hv : v ≠ 0) :
    aliveCount (ps.set i v) = aliveCount ps := by
  induction ps generalizing i with
  | nil => simp [List.getD] at h
  | cons p rest ih =>
    cases i with
    | zero =>
      rw [List.getD_cons_zero] at h
      simp only [List.set_cons_zero]
      rw [aliveCount_cons, aliveCount_cons, if_neg h, if_neg hv]
    | succ n =>
      rw [List.getD_cons_succ] at h
      simp only [List.set_cons_succ]
      rw [aliveCount_cons, aliveCount_cons, ih n h]

theorem rook_reloc_zero (c r m : Nat) : rook_reloc c r m 0 = 0 := by
  unfold rook_reloc
  rw [if_neg]
  rintro ⟨-, h2⟩
  simp [Nat.zero_and] at h2

theorem rook_reloc_ne_zero (c r m p : Nat) (hr : r ≠ 0) (hp : p ≠ 0) :
    rook_reloc c r m p ≠ 0 := by
  unfold rook_reloc
  split_ifs <;> assumption

theorem reloc_list_getD (c r : Nat) (ps : List Nat) (n i : Nat) :
    (reloc_list c r n ps).getD i 0 = rook_reloc c r (n + i) (ps.getD i 0) := by
  induction ps generalizing n i with
  | nil => simp [reloc_list, List.getD, rook_reloc_zero]
  | cons p rest ih =>
    cases i with
    | zero => simp [reloc_list, List.getD_cons_zero]
    | succ m =>
      simp only [reloc_list, List.getD_cons_succ]
      rw [ih (n + 1) m]
      congr 1
      omega

theorem reloc_list_aliveCount (c r : Nat) (hr : r ≠ 0) (ps : List Nat) (n : Nat) :
    aliveCount (reloc_list c r n ps) = aliveCount ps := by
  induction ps generalizing n with
  | nil => rfl
  | cons p rest ih =>
    simp only [reloc_list]
    rw [aliveCount_cons, aliveCount_cons, ih (n + 1)]
    congr 1
    rcases eq_or_ne p 0 with h | h
    · rw [h, rook_reloc_zero]
    · rw [if_neg (rook_reloc_ne_zero c r n p hr h), if_neg h]

theorem tz64_le (x : Nat) : tz64 x ≤ 64 := by
  unfold tz64
  rcases h : (List.range 64).find? (fun i => x.testBit i) with - | i
  · simp
  · have hm := List.mem_of_find?_eq_some h
    rw [List.mem_range] at hm
    simp
    omega

theorem tz64_two_pow : ∀ k, k < 64 → tz64 (2 ^ k) = k := by decide

theorem into_piece_king (id : Nat) (h : into_piece id = Piece.King) : id = 0 := by
  unfold into_piece at h
  split_ifs at h <;> first | assumption | exact absurd h (by simp)

theorem castle_step_facts (curr : Team) (id pos mov kk : Nat)
    (hk : kk < 64) (hmov : mov = 2 ^ kk) :
    aliveCount ((castle_step curr id pos mov
        ((tz64 pos : Int) - (tz64 mov : Int))).positions) = aliveCount curr.positions ∧
    (castle_step curr id pos mov
        ((tz64 pos : Int) - (tz64 mov : Int))).positions.getD id 0 =
      curr.positions.getD id 0 := by
  unfold castle_step
  rcases hip : into_piece id with - | - | - | - | - | -
  · exact ⟨rfl, rfl⟩
  · exact ⟨rfl, rfl⟩
  · exact ⟨rfl, rfl⟩
  · exact ⟨rfl, rfl⟩
  · exact ⟨rfl, rfl⟩
  · -- King: id = 0
    have hid : id = 0 := into_piece_king id hip
    subst hid
    have hmtz : tz64 mov = kk := hmov ▸ tz64_two_pow kk hk
    dsimp only []
    split_ifs with hd1 hd2
    · -- dist = -2 : rpos = mov >>> 1
      have hk2 : 2 ≤ kk := by
        have := tz64_le pos
        omega
      have hrp : mov >>> 1 ≠ 0 := by
        rw [hmov, Nat.shiftRight_eq_div_pow]
        have : 2 ^ kk / 2 ^ 1 = 2 ^ (kk - 1) := by
          rw [Nat.pow_div (by omega) (by norm_num)]
        rw [this]
        positivity
      constructor
      · exact reloc_list_aliveCount _ _ hrp _ 0
      · rw [reloc_list_getD]
        unfold rook_reloc
        rw [if_neg]
        rintro ⟨h34, -⟩
        omega
    · -- dist = 2 : rpos = shl64 mov 1
      have hk62 : kk ≤ 62 := by
        have := tz64_le pos
        omega
      have hrp : shl64 mov 1 ≠ 0 := by
        rw [hmov]
        unfold shl64 MOD64
        rw [Nat.shiftLeft_eq, ← pow_succ]
        have hlt : 2 ^ (kk + 1) < 18446744073709551616 := by
          calc 2 ^ (kk + 1) ≤ 2 ^ 63 := Nat.pow_le_pow_right (by norm_num) (by omega)
            _ < 18446744073709551616 := by norm_num
        rw [Nat.mod_eq_of_lt hlt]
        positivity
      constructor
      · exact reloc_list_aliveCount _ _ hrp _ 0
      · rw [reloc_list_getD]
        unfold rook_reloc
        rw [if_neg]
        rintro ⟨h34, -⟩
        omega
    · exact ⟨rfl, rfl⟩

theorem land_lor_absorb (x a : Nat) : x &&& (a ||| x) = x := by
  apply Nat.eq_of_testBit_eq
  intro i
  rw [Nat.testBit_land, Nat.testBit_lor]
  cases h : x.testBit i <;> simp

theorem land_mono_ne (a b c : Nat) (h : a &&& b ≠ 0) : a &&& (b ||| c) ≠ 0 := by
  intro hc
  apply h
  apply Nat.eq_of_testBit_eq
  intro i
  have hi : (a &&& (b ||| c)).testBit i = false := by rw [hc]; simp
  rw [Nat.testBit_land, Nat.testBit_lor] at hi
  rw [Nat.testBit_land, Nat.zero_testBit]
  cases ha : a.testBit i <;> cases hb : b.testBit i <;> simp_all

theorem pow_land_eq_zero (k y : Nat) (h : y.testBit k = false) : 2 ^ k &&& y = 0 := by
  apply Nat.eq_of_testBit_eq
  intro i
  rw [Nat.testBit_land, Nat.zero_testBit, Nat.testBit_two_pow]
  rcases eq_or_ne k i with rfl | hne
  · simp [h]
  · simp [hne]

theorem testBit_of_pow_land_ne (k y : Nat) (h : 2 ^ k &&& y ≠ 0) :
    y.testBit k = true := by
  by_contra hc
  exact h (pow_land_eq_zero k y (Bool.not_eq_true _ ▸ hc))

theorem zeroFirst_getD (ps : List Nat) (att i : Nat) :
    (zeroFirst ps att).getD i 0 = ps.getD i 0 ∨ (zeroFirst ps att).getD i 0 = 0 := by
  induction ps generalizing i with
  | nil => exact Or.inl rfl
  | cons p rest ih =>
    unfold zeroFirst
    split_ifs with h
    · cases i with
      | zero => exact Or.inr (by rw [List.getD_cons_zero])
      | succ n => rw [List.getD_cons_succ, List.getD_cons_succ]; exact Or.inl rfl
    · cases i with
      | zero => exact Or.inl rfl
      | succ n => rw [List.getD_cons_succ, List.getD_cons_succ]; exact ih n

theorem getD_set_self_cases (ps : List Nat) (i v : Nat) :
    (ps.set i v).getD i 0 = v ∨ (ps.set i v).getD i 0 = 0 := by
  rcases Nat.lt_or_ge i ps.length with h | h
  · left
    simp [List.getD, List.getElem?_set_self, h]
  · right
    apply List.getD_eq_default
    rw [List.length_set]
    exact h

theorem getD_set_ne (ps : List Nat) (i j v : Nat) (h : i ≠ j) :
    (ps.set i v).getD j 0 = ps.getD j 0 := by
  simp [List.getD, List.getElem?_set_ne h]

theorem pawn_step_km (curr : Team) (id mov : Nat) (dist : Int) (mtz : Nat) :
    (pawn_step curr id mov dist mtz).1.king_moved = curr.king_moved := by
  unfold pawn_step
  dsimp only []
  split_ifs <;> rfl

theorem pawn_step_dm (curr : Team) (id mov : Nat) (dist : Int) (mtz : Nat) :
    (pawn_step curr id mov dist mtz).1.did_move = curr.did_move := by
  unfold pawn_step
  dsimp only []
  split_ifs <;> rfl

theorem into_piece_rook (id : Nat) (h : id = 3 ∨ id = 4) : into_piece id = Piece.Rook := by
  rcases h with rfl | rfl <;> rfl

theorem into_piece_rook_ids (id : Nat) (h : into_piece id = Piece.Rook) :
    id = 3 ∨ id = 4 := by
  unfold into_piece at h
  split_ifs at h with h1 h2 h3 <;> first | omega | exact absurd h (by simp)

theorem compromised_pawn_step (curr : Team) (id mov : Nat) (dist : Int) (mtz r : Nat)
    (h : compromised curr r) :
    compromised (pawn_step curr id mov dist mtz).1 r := by
  unfold compromised
  rw [pawn_step_positions, pawn_step_dm, pawn_step_km]
  exact h

theorem compromised_set_other (X : Team) (id mov r : Nat) (hne : id ≠ r)
    (hcomp : compromised X r) :
    compromised { X with positions := X.positions.set id mov } r := by
  rcases hcomp with h | h | h
  · exact Or.inl h
  · exact Or.inr (Or.inl (by rw [getD_set_ne _ _ _ _ hne]; exact h))
  · exact Or.inr (Or.inr (by rw [getD_set_ne _ _ _ _ hne]; exact h))

theorem compromised_set_rook (X : Team) (r mov : Nat) :
    compromised { X with did_move := X.did_move ||| mov
                         positions := X.positions.set r mov } r := by
  rcases getD_set_self_cases X.positions r mov with h | h
  · rcases eq_or_ne mov 0 with rfl | hmz
    · exact Or.inr (Or.inr h)
    · refine Or.inr (Or.inl ?_)
      show (X.positions.set r mov).getD r 0 &&& (X.did_move ||| mov) ≠ 0
      rw [h, land_lor_absorb]
      exact hmz
  · exact Or.inr (Or.inr h)

theorem compromised_set_rook_other (X : Team) (id mov r : Nat) (hne : id ≠ r)
    (hcomp : compromised X r) :
    compromised { X with did_move := X.did_move ||| mov
                         positions := X.positions.set id mov } r := by
  rcases hcomp with h | h | h
  · exact Or.inl h
  · refine Or.inr (Or.inl ?_)
    show (X.positions.set id mov).getD r 0 &&& (X.did_move ||| mov) ≠ 0
    rw [getD_set_ne _ _ _ _ hne]
    exact land_mono_ne _ _ _ h
  · exact Or.inr (Or.inr (by rw [getD_set_ne _ _ _ _ hne]; exact h))

theorem compromised_curr3 (curr0 : Team) (id pos mov : Nat) (dist : Int) (mtz : Nat)
    (r : Nat) (hr : r = 3 ∨ r = 4)
    (h : compromised curr0 r ∨ id = r ∨ id = 0) :
    compromised { castle_step (pawn_step curr0 id mov dist mtz).1 id pos mov dist with
      positions :=
        (castle_step (pawn_step curr0 id mov dist mtz).1 id pos mov dist).positions.set
          id mov } r := by
  rcases hid0 : into_piece id with - | - | - | - | - | -
  case King =>
    refine Or.inl ?_
    show (castle_step (pawn_step curr0 id mov dist mtz).1 id pos mov dist).king_moved = true
    unfold castle_step
    rw [hid0]
    dsimp only []
    split_ifs <;> rfl
  case Rook =>
    unfold castle_step
    rw [hid0]
    dsimp only []
    rcases eq_or_ne id r with rfl | hne
    · exact compromised_set_rook _ _ _
    · have hcomp : compromised curr0 r := by
        rcases h with h | h | h
        · exact h
        · exact absurd h hne
        · subst h
          exact absurd hid0 (by simp [into_piece])
      exact compromised_set_rook_other _ _ _ _ hne
        (compromised_pawn_step _ _ _ _ _ _ hcomp)
  all_goals {
    unfold castle_step
    rw [hid0]
    dsimp only []
    have hne : id ≠ r := by
      intro he
      rw [he, into_piece_rook r hr] at hid0
      cases hid0
    have hne0 : id ≠ 0 := by
      intro he
      rw [he] at hid0
      simp [into_piece] at hid0
    have hcomp : compromised curr0 r := by
      rcases h with h | h | h
      · exact h
      · exact absurd h hne
      · exact absurd h hne0
    exact compromised_set_other _ _ _ _ hne
      (compromised_pawn_step _ _ _ _ _ _ hcomp)
  }

theorem compromised_opp1 (opp0 : Team) (att r : Nat) (h : compromised opp0 r) :
    compromised { opp0 with positions := zeroFirst opp0.positions att } r := by
  rcases h with h | h | h
  · exact Or.inl h
  · rcases zeroFirst_getD opp0.positions att r with hg | hg
    · refine Or.inr (Or.inl ?_)
      show (zeroFirst opp0.positions att).getD r 0 &&& opp0.did_move ≠ 0
      rw [hg]
      exact h
    · exact Or.inr (Or.inr hg)
  · rcases zeroFirst_getD opp0.positions att r with hg | hg
    · exact Or.inr (Or.inr (hg.trans h))
    · exact Or.inr (Or.inr hg)

theorem eq_otherP_of_ne (s p : Player) (h : s ≠ p) : s = otherP p := by
  cases s <;> cases p <;> first | rfl | exact absurd rfl h

theorem testBit_compl64 (y k : Nat) (hk : k < 64) :
    (compl64 y).testBit k = !y.testBit k := by
  unfold compl64 FILL
  rw [Nat.testBit_xor]
  have hf : (0xffffffffffffffff : Nat).testBit k = true := by
    have he : (0xffffffffffffffff : Nat) = 2 ^ 64 - 1 := by norm_num
    rw [he, Nat.testBit_two_pow_sub_one]
    simp [hk]
  rw [hf]
  simp

theorem castlingRooks_testBit_high (ct : Team) (kpos kk : Nat) (hk : 64 ≤ kk) :
    (castlingRooks ct kpos).testBit kk = false := by
  unfold castlingRooks
  rw [Nat.testBit_land, Nat.testBit_land]
  have hbm : (byte_mask (tz64 kpos)).testBit kk = false := by
    apply Nat.testBit_lt_two_pow
    calc byte_mask (tz64 kpos) < 2 ^ 64 := by
          unfold byte_mask shl64 MOD64
          exact Nat.mod_lt _ (by norm_num)
      _ ≤ 2 ^ kk := Nat.pow_le_pow_right (by norm_num) hk
  rw [hbm]
  simp

end Chess

namespace Chess

set_option maxRecDepth 16000

/-- Claim C1: a pawn double advance sets the moving side's `en_passant_pos`
to the destination, and after any other subsequent move by either side the
field must read as cleared.  The first conjunct confirms the setting half;
the remaining conjuncts REFUTE the clearing half on the code: after white's
subsequent knight move (a legal non-pawn move), white's `en_passant_pos`
still holds the b4 square, because `play_move` only touches
`en_passant_pos` inside its `id >= PAWN[0]` branch. -/
theorem c1_en_passant_window_violated :
    (play_legal Board.new (seqEnPassant.take 1)).map
        (fun b => (b.teamOf Player.White).en_passant_pos) = some (flatten_bit 1 3) ∧
    (play_legal Board.new seqEnPassant).map
        (fun b => (b.teamOf Player.White).en_passant_pos) = some (flatten_bit 1 3) ∧
    flatten_bit 1 3 ≠ 0 := by decide

/-- Claim C2: the castling move must appear only if every square the king
crosses, destination included, is unattacked.  REFUTED on the code: in
`castlingCexBoard` the king's legal moves include the castling destination
g1 even though `is_attacked` holds for g1 (the black rook on g8 attacks it);
the source only tests the squares strictly between king and destination. -/
theorem c2_castling_destination_unchecked :
    (get_legal_moves castlingCexBoard 0).map (fun m => m &&& flatten_bit 6 0) =
      some (flatten_bit 6 0) ∧
    is_attacked (flatten_bit 6 0) castlingCexBoard.white.mask castlingCexBoard.black.mask
        castlingCexBoard.black.positions castlingCexBoard.black.promotions Player.White =
      some true ∧
    castlingCexBoard.white.king_moved = false ∧
    flatten_bit 6 0 ≠ 0 := by decide

/-- Claim C3: the attack test used by the king filter is said to exclude the
king's own current square from the blockers, so the king cannot retreat
along a checking slider's ray.  REFUTED on the code: `is_attacked` excludes
only the tested square itself (`curr & !pos`), so in `xrayCexBoard` the
white king, checked by the e8 rook, keeps the retreat square e3 in its
legal moves — the first conjunct — although the attack test with the king's
own square removed from the blockers reports e3 attacked — the second. -/
theorem c3_king_blocks_own_escape_ray :
    (get_legal_moves xrayCexBoard 0).map (fun m => m &&& flatten_bit 4 2) =
      some (flatten_bit 4 2) ∧
    is_attacked (flatten_bit 4 2)
        (xrayCexBoard.white.mask &&& compl64 (flatten_bit 4 3))
        xrayCexBoard.black.mask xrayCexBoard.black.positions
        xrayCexBoard.black.promotions Player.White = some true ∧
    flatten_bit 4 2 ≠ 0 := by decide

/-- Claim C4 counterexample: on the all-zero input the fill primitives do
NOT return the all-ones mask — `checked_shl`/`checked_shr` saturate the
64-bit shift to zero, so the result is the all-zero mask. -/
theorem c4_fill_zero_counterexample :
    fill_left_incl 0 ≠ FILL ∧ fill_left_incl 0 = 0 := by decide

/-- Claim C4 as amended: for the all-zero input mask, each of the four fill
primitives returns the all-zero 64-bit mask (never the all-ones mask). -/
theorem c4_fill_zero_all_zero :
    fill_left_incl 0 = 0 ∧ fill_left_excl 0 = 0 ∧
    fill_right_incl 0 = 0 ∧ fill_right_excl 0 = 0 := by decide

/-- Claim C5: in every state reachable from the initial board by legal
moves, no two slots of one side share a set bit.  REFUTED on the code:
after `seqOverlap` — accepted move by move by `play_legal`, which demands
each destination be a single bit inside `get_legal_moves` — white pawn
slots 10 and 12 both hold the single bit of square d6. -/
theorem c5_occupancy_invariant_violated :
    (play_legal Board.new seqOverlap).map
        (fun b => ((b.teamOf Player.White).positions.getD 10 0,
                   (b.teamOf Player.White).positions.getD 12 0)) =
      some (flatten_bit 3 5, flatten_bit 3 5) ∧
    flatten_bit 3 5 ≠ 0 := by decide

/-- Claim C9: calling `select_promotion` while no promotion is pending for
the side to move is a fatal precondition failure (the source aborts on the
`promotions[promotion_id as usize]` access), modelled by `none`. -/
theorem c9_select_promotion_without_pending_aborts (b : Board) (k : Piece)
    (h : has_promotion b = false) : select_promotion b k = none := by
  have h1 : ¬ (0 ≤ (b.teamOf b.player).promotion_id) := by
    simpa [has_promotion] using h
  unfold select_promotion
  rw [if_neg (fun hc => h1 hc.1)]

/-- Witness for C9 at a concrete input: the initial board has no pending
promotion and `select_promotion` aborts on it. -/
theorem c9_select_promotion_witness :
    has_promotion Board.new = false ∧ select_promotion Board.new Piece.Queen = none :=
  ⟨by decide, c9_select_promotion_without_pending_aborts Board.new Piece.Queen (by decide)⟩


/-- Claim C6: a legal pawn move onto the far rank by a pawn that has not yet
promoted leaves `has_promotion` true and the side to move unchanged, and the
subsequent `select_promotion` records the chosen kind into the slot, clears
the pending id, and flips the side to move exactly once. -/
theorem c6_promotion_gates_turn (b : Board) (id mov : Nat) (k : Piece)
    (h8 : 8 ≤ id) (h16 : id < 16)
    (hlen : (b.teamOf b.player).promotions.length = 16)
    (hprom : (b.teamOf b.player).promotions.getD id none = none)
    (hfar : tz64 mov < 8 ∨ 56 ≤ tz64 mov) :
    ∃ b1, play_move b id mov = some b1 ∧ has_promotion b1 = true ∧ b1.player = b.player ∧
      ∃ b2, select_promotion b1 k = some b2 ∧ b2.player = otherP b.player ∧
        (b2.teamOf b.player).promotion_id = -1 ∧
        (b2.teamOf b.player).promotions.getD id none = some k := by
  unfold play_move
  rw [if_pos h16]
  dsimp only []
  rw [pawn_step_far _ _ _ _ _ h8 hfar hprom]
  dsimp only []
  rw [castle_step_pawn _ _ _ _ _ h8]
  simp only [Bool.false_eq_true, if_false]
  refine ⟨_, rfl, ?_, ?_, ?_⟩
  · unfold has_promotion
    rw [player_double, teamOf_double]
    simp
  · rw [player_double]
  · unfold select_promotion
    rw [player_double, teamOf_double]
    dsimp only []
    rw [if_pos ⟨Int.natCast_nonneg id, by exact_mod_cast h16⟩]
    refine ⟨_, rfl, ?_, ?_, ?_⟩
    · rfl
    · rw [teamOf_withPlayer, teamOf_setTeam_self]
    · rw [teamOf_withPlayer, teamOf_setTeam_self]
      dsimp only []
      rw [Int.toNat_natCast]
      simp [List.getD, List.getElem?_set_self, hlen, h16]

/-- Witness for C6: white pawn a7-a8 on `promoPawnBoard`, resolved with a
queen. -/
theorem c6_promotion_gates_turn_witness :
    ∃ b1, play_move promoPawnBoard 8 (flatten_bit 0 7) = some b1 ∧
      has_promotion b1 = true ∧ b1.player = promoPawnBoard.player ∧
      ∃ b2, select_promotion b1 Piece.Queen = some b2 ∧
        b2.player = otherP promoPawnBoard.player ∧
        (b2.teamOf promoPawnBoard.player).promotion_id = -1 ∧
        (b2.teamOf promoPawnBoard.player).promotions.getD 8 none =
          some Piece.Queen :=
  c6_promotion_gates_turn promoPawnBoard 8 (flatten_bit 0 7) Piece.Queen
    (by decide) (by decide) (by decide) (by decide) (by decide)

/-- Claim C7: applying a move whose destination is a single bit to a live
slot keeps the moving side's live-piece count unchanged and either keeps the
opponent's live-piece count or lowers it by exactly one (a capture,
including en passant); in particular the total count is preserved or drops
by exactly one and the mover's own count never decreases. -/
theorem c7_capture_count (b : Board) (id mov kk : Nat) (h16 : id < 16) (hk : kk < 64)
    (hmov : mov = 2 ^ kk)
    (halive : (b.teamOf b.player).positions.getD id 0 ≠ 0) :
    ∃ b1, play_move b id mov = some b1 ∧
      aliveCount ((b1.teamOf b.player).positions) =
        aliveCount ((b.teamOf b.player).positions) ∧
      (aliveCount ((b1.teamOf (otherP b.player)).positions) =
         aliveCount ((b.teamOf (otherP b.player)).positions) ∨
       aliveCount ((b1.teamOf (otherP b.player)).positions) + 1 =
         aliveCount ((b.teamOf (otherP b.player)).positions)) := by
  have hmz : mov ≠ 0 := by rw [hmov]; positivity
  unfold play_move
  rw [if_pos h16]
  dsimp only []
  refine ⟨_, rfl, ?_, ?_⟩
  · rw [teamOf_ite, teamOf_double]
    dsimp only []
    have hfacts := castle_step_facts
      (pawn_step (b.teamOf b.player) id mov
        ((tz64 ((b.teamOf b.player).positions.getD id 0) : Int) - (tz64 mov : Int))
        (tz64 mov)).1
      id ((b.teamOf b.player).positions.getD id 0) mov kk hk hmov
    rw [pawn_step_positions] at hfacts
    rw [aliveCount_set _ _ _ (by rw [hfacts.2]; exact halive) hmz, hfacts.1]
  · rw [teamOf_ite, teamOf_double_other]
    dsimp only []
    exact zeroFirst_aliveCount _ _ (att_target_ne_zero _ _ _ _ hmz)

/-- Witness for C7: the opening pawn move b2-b3 from the initial board. -/
theorem c7_capture_count_witness :
    ∃ b1, play_move Board.new 9 (flatten_bit 1 2) = some b1 ∧
      aliveCount ((b1.teamOf Board.new.player).positions) =
        aliveCount ((Board.new.teamOf Board.new.player).positions) ∧
      (aliveCount ((b1.teamOf (otherP Board.new.player)).positions) =
         aliveCount ((Board.new.teamOf (otherP Board.new.player)).positions) ∨
       aliveCount ((b1.teamOf (otherP Board.new.player)).positions) + 1 =
         aliveCount ((Board.new.teamOf (otherP Board.new.player)).positions)) :=
  c7_capture_count Board.new 9 (flatten_bit 1 2) 17 (by decide) (by decide)
    (by decide) (by decide)

/-- Claim C8: castling gating is monotonic.  Moving a rook slot or the king
makes that team `compromised` for the rook (first conjunct); `compromised`
is preserved by every further `play_move` of either side and by
`select_promotion` (second and third conjuncts); and a compromised route
never produces a castling destination through that rook: with the king moved
`castling_moves` is empty, and otherwise the rook's square is excluded from
the iterated rook mask `castlingRooks` (fourth conjunct). -/
theorem c8_castling_gating :
    (∀ (b : Board) (id mov : Nat) (b1 : Board) (r : Nat), (r = 3 ∨ r = 4) →
        play_move b id mov = some b1 →
        (id = r ∨ id = 0 ∨ compromised (b.teamOf b.player) r) →
        compromised (b1.teamOf b.player) r) ∧
    (∀ (b : Board) (id mov : Nat) (b1 : Board) (s : Player) (r : Nat), (r = 3 ∨ r = 4) →
        play_move b id mov = some b1 → compromised (b.teamOf s) r →
        compromised (b1.teamOf s) r) ∧
    (∀ (b : Board) (k : Piece) (b1 : Board) (s : Player) (r : Nat),
        select_promotion b k = some b1 → compromised (b.teamOf s) r →
        compromised (b1.teamOf s) r) ∧
    (∀ (ct ot : Team) (kpos : Nat) (pl : Player) (r : Nat), (r = 3 ∨ r = 4) →
        compromised ct r →
        (ct.positions.getD r 0 = 0 ∨ ∃ kk, ct.positions.getD r 0 = 2 ^ kk) →
        (ct.king_moved = true → castling_moves kpos ct ot pl = some 0) ∧
        (ct.king_moved = false →
          ct.positions.getD r 0 &&& castlingRooks ct kpos = 0)) := by
  refine ⟨?_, ?_, ?_, ?_⟩
  · intro b id mov b1 r hr hpm h
    unfold play_move at hpm
    by_cases h16 : id < 16
    · rw [if_pos h16] at hpm
      dsimp only [] at hpm
      injection hpm with hb
      subst hb
      rw [teamOf_ite, teamOf_double]
      apply compromised_curr3 _ _ _ _ _ _ _ hr
      tauto
    · rw [if_neg h16] at hpm
      cases hpm
  · intro b id mov b1 s r hr hpm h
    unfold play_move at hpm
    by_cases h16 : id < 16
    · rw [if_pos h16] at hpm
      dsimp only [] at hpm
      injection hpm with hb
      subst hb
      rw [teamOf_ite]
      by_cases hs : s = b.player
      · subst hs
        rw [teamOf_double]
        exact compromised_curr3 _ _ _ _ _ _ _ hr (Or.inl h)
      · rw [eq_otherP_of_ne s b.player hs] at h ⊢
        rw [teamOf_double_other]
        exact compromised_opp1 _ _ _ h
    · rw [if_neg h16] at hpm
      cases hpm
  · intro b k b1 s r hs h
    unfold select_promotion at hs
    by_cases hc : 0 ≤ (b.teamOf b.player).promotion_id ∧
        (b.teamOf b.player).promotion_id < 16
    · rw [if_pos hc] at hs
      injection hs with hb
      subst hb
      rw [teamOf_withPlayer]
      by_cases hsp : s = b.player
      · subst hsp
        rw [teamOf_setTeam_self]
        exact h
      · rw [teamOf_setTeam_ne _ _ _ _ hsp]
        exact h
    · rw [if_neg hc] at hs
      cases hs
  · intro ct ot kpos pl r hr hcomp hone
    constructor
    · intro hkm
      unfold castling_moves
      rw [if_pos hkm]
    · intro hkm
      rcases hone with h0 | ⟨kk, hkk⟩
      · rw [h0, Nat.zero_and]
      · rw [hkk]
        rcases hcomp with h | h | h
        · rw [hkm] at h
          cases h
        · rw [hkk] at h
          have hbit : ct.did_move.testBit kk = true := testBit_of_pow_land_ne _ _ h
          apply pow_land_eq_zero
          rcases Nat.lt_or_ge kk 64 with hk | hk
          · unfold castlingRooks
            rw [Nat.testBit_land, testBit_compl64 _ _ hk, hbit]
            simp
          · exact castlingRooks_testBit_high ct kpos kk hk
        · rw [hkk] at h
          exact absurd h (by positivity)

/-- Witness for C8: white plays a1-a4 from the initial position; the route
through rook slot 3 is compromised, stays compromised after a black reply
and after a promotion resolution, and the moved rook is excluded from the
castling rook mask. -/
theorem c8_castling_gating_witness :
    compromised (rookMovedBoard.teamOf Board.new.player) 3 ∧
    compromised (rookMovedBoard2.teamOf Player.White) 3 ∧
    compromised (pendingPromoAfter.teamOf Player.White) 3 ∧
    (rookMovedBoard.teamOf Player.White).positions.getD 3 0 &&&
      castlingRooks (rookMovedBoard.teamOf Player.White) (flatten_bit 4 0) = 0 := by
  refine ⟨?_, ?_, ?_, ?_⟩
  · exact c8_castling_gating.1 Board.new 3 (flatten_bit 0 3) rookMovedBoard 3
      (Or.inl rfl) (by decide) (Or.inl rfl)
  · exact c8_castling_gating.2.1 rookMovedBoard 1 (flatten_bit 0 5) rookMovedBoard2
      Player.White 3 (Or.inl rfl) (by decide) (Or.inr (Or.inl (by decide)))
  · exact c8_castling_gating.2.2.1 pendingPromoBoard Piece.Queen pendingPromoAfter
      Player.White 3 (by decide) (Or.inr (Or.inr (by decide)))
  · exact (c8_castling_gating.2.2.2 (rookMovedBoard.teamOf Player.White)
      (rookMovedBoard.teamOf Player.Black) (flatten_bit 4 0) Player.White 3
      (Or.inl rfl) (Or.inr (Or.inl (by decide))) (Or.inr ⟨24, by decide⟩)).2 (by decide)

/-- Claim C10: `select_promotion` accepts any piece kind whenever a
promotion is pending, but once a kind other than rook, bishop or queen
(for example a knight) is recorded for a pawn slot, `get_legal_moves` on
that slot aborts: the promoted-pawn dispatch has generators only for rook,
bishop and queen and panics otherwise. -/
theorem c10_promotion_dispatch (b : Board) :
    (∀ k : Piece, 0 ≤ (b.teamOf b.player).promotion_id →
        (b.teamOf b.player).promotion_id < 16 →
        (select_promotion b k).isSome = true) ∧
    (∀ (id : Nat) (k : Piece), 8 ≤ id → id < 16 → k ≠ Piece.Rook →
        k ≠ Piece.Bishop → k ≠ Piece.Queen →
        (b.teamOf b.player).promotions.getD id none = some k →
        get_legal_moves b id = none) := by
  constructor
  · intro k h1 h2
    unfold select_promotion
    rw [if_pos ⟨h1, h2⟩]
    rfl
  · intro id k h8 h16 hr hb hq hprom
    unfold get_legal_moves
    rw [if_neg (by omega)]
    dsimp only []
    rw [into_piece_pawn id h8, hprom]
    cases k
    · rfl
    · exact absurd rfl hr
    · rfl
    · exact absurd rfl hb
    · exact absurd rfl hq
    · rfl

/-- Witness for C10: a pending promotion accepts a knight, and a pawn slot
recorded as promoted to a knight makes `get_legal_moves` abort. -/
theorem c10_promotion_dispatch_witness :
    (select_promotion pendingKnightBoard Piece.Knight).isSome = true ∧
    get_legal_moves knightPromoBoard 8 = none :=
  ⟨(c10_promotion_dispatch pendingKnightBoard).1 Piece.Knight (by decide) (by decide),
   (c10_promotion_dispatch knightPromoBoard).2 8 Piece.Knight (by decide) (by decide)
     (by decide) (by decide) (by decide) (by decide)⟩

end Chess
